import Mathlib

/-!
Shallow embedding of `del_aws_resources.py`, a best-effort AWS teardown
script.  Each teardown procedure of the script is translated into a pure
Lean function from an explicit environment (the resources the cloud
control plane would report) to a trace of control-plane events (delete
calls, waiter calls, log lines).  Remote listing calls become reads of
the environment; a call made through a boto3 paginator consumes every
page of its listing, while a bare (unpaginated) call consumes only the
first page, mirroring the script's use (or non-use) of
`client.get_paginator`.
-/

namespace AwsDel

/-- Boolean test that the pattern list matches at the front of the
second list (character-for-character). -/
def matchFront : List Char → List Char → Bool
  | [], _ => true
  | _ :: _, [] => false
  | p :: ps, c :: cs => p == c && matchFront ps cs

/-- Boolean substring search over character lists: Python's `pat in s`. -/
def subSearch (pat : List Char) : List Char → Bool
  | [] => pat.isEmpty
  | c :: cs => matchFront pat (c :: cs) || subSearch pat cs

/-- Python's `pat in s` on strings. -/
def strContains (s pat : String) : Bool :=
  subSearch pat.toList s.toList

/-- The first page of an unpaginated listing call: a bare boto3 list
call returns only one page of results. -/
def firstPage (pages : List (List α)) : List α :=
  pages.headD []

namespace Cfn

/-- CloudFormation stack statuses relevant to `delete_all_stacks`;
`OTHER` stands for every status outside the script's filters. -/
inductive StackStatus
  | CREATE_COMPLETE
  | UPDATE_COMPLETE
  | ROLLBACK_COMPLETE
  | DELETE_FAILED
  | OTHER
deriving DecidableEq

/-- A stack summary as `list_stacks` / `describe_stacks` report it:
name, status, and the termination-protection flag. -/
structure StackSummary where
  StackName : String
  status : StackStatus
  EnableTerminationProtection : Bool
deriving DecidableEq

/-- Control-plane events emitted by `delete_all_stacks`. -/
inductive Event
  | deleteStack (name : String)
  | skipStack (name : String)
  | waitStackDeleted (name : String)
deriving DecidableEq

/-- The listing `paginator.paginate(StackStatusFilter=...)`: the stacks of the
region whose status is in the given filter (the paginator walks every
page, so the whole filtered listing is returned). -/
def list_stacks (statusFilter : List StackStatus) (env : List StackSummary) :
    List StackSummary :=
  env.filter (fun s => decide (s.status ∈ statusFilter))

/-- Body of both per-stack loops once the name condition has matched:
`describe_stacks`, skip when termination protection is on, otherwise
`delete_stack` followed by the optional `stack_delete_complete` waiter. -/
def processStack (wait : Bool) (s : StackSummary) : List Event :=
  if s.EnableTerminationProtection then [.skipStack s.StackName]
  else .deleteStack s.StackName ::
    (if wait then [.waitStackDeleted s.StackName] else [])

/-- One pass of `delete_all_stacks`: iterate the listed stacks, act on
those whose name satisfies the pass's condition. -/
def stackPass (nameCond : StackSummary → Bool) (wait : Bool) :
    List StackSummary → List Event
  | [] => []
  | s :: rest =>
    (if nameCond s then processStack wait s else []) ++ stackPass nameCond wait rest

/-- Status filter of the first (name-filtered) pass. -/
def pass1Filter : List StackStatus :=
  [.CREATE_COMPLETE, .UPDATE_COMPLETE, .ROLLBACK_COMPLETE, .DELETE_FAILED]

/-- Status filter of the second (general) pass. -/
def pass2Filter : List StackStatus :=
  [.CREATE_COMPLETE, .UPDATE_COMPLETE, .ROLLBACK_COMPLETE]

/-- Name condition of the first pass: `'AppPipe' in name or 'AppIngestion' in name`. -/
def pass1Name (s : StackSummary) : Bool :=
  strContains s.StackName "AppPipe" || strContains s.StackName "AppIngestion"

/-- Name condition of the second pass: `'AppPipe' not in name`. -/
def pass2Name (s : StackSummary) : Bool :=
  !(strContains s.StackName "AppPipe")

/-- The procedure `delete_all_stacks`: the name-filtered pass over the
`DELETE_FAILED`-inclusive listing, then the general pass over the
narrower listing. -/
def delete_all_stacks (env : List StackSummary) (wait : Bool) : List Event :=
  stackPass pass1Name wait (list_stacks pass1Filter env)
  ++ stackPass pass2Name wait (list_stacks pass2Filter env)

end Cfn

namespace Asg

/-- Events of `delete_all_auto_scaling_groups`. -/
inductive Event
  | deleteAutoScalingGroup (name : String)
deriving DecidableEq

/-- The procedure `delete_all_auto_scaling_groups`: a paginated
`describe_auto_scaling_groups` listing (every page consumed), then a
forced delete per group.  No waiter. -/
def delete_all_auto_scaling_groups (pages : List (List String)) : List Event :=
  pages.flatMap (fun page => page.map (fun g => .deleteAutoScalingGroup g))

end Asg

namespace Lam

/-- The outcome of one `get_function` existence poll: the function is
still there, a `ResourceNotFoundException` is raised, or some other
exception is raised. -/
inductive PollResult
  | found
  | notFound
  | otherError
deriving DecidableEq

/-- Events of `delete_all_lambda_functions`. -/
inductive Event
  | deleteFunction (name : String)
  | sleepSeconds (n : Nat)
  | loggedDeleted (name : String)
  | loggedError (name : String)
deriving DecidableEq

/-- The `while True` polling loop after `delete_function`: poll
`get_function`; on `ResourceNotFoundException` log the deletion and
break; on any other exception log the error and break; otherwise sleep
5 seconds and poll again.  The loop itself is unbounded, so it is
embedded with explicit fuel: `none` means the fuel ran out while the
function was still found (the loop had not terminated). -/
def pollLoop (oracle : Nat → PollResult) (name : String) :
    Nat → Nat → Option (List Event)
  | _, 0 => none
  | k, fuel + 1 =>
    match oracle k with
    | .notFound => some [.loggedDeleted name]
    | .otherError => some [.loggedError name]
    | .found => (pollLoop oracle name (k + 1) fuel).map
        (fun evs => .sleepSeconds 5 :: evs)

/-- The procedure `delete_all_lambda_functions`: a paginated `list_functions` listing
(flattened into one list of functions, each with the oracle describing
its poll responses), then per function a `delete_function` call
followed by the polling loop.  `none` means some polling loop had not
terminated within the fuel. -/
def delete_all_lambda_functions (env : List (String × (Nat → PollResult)))
    (fuel : Nat) : Option (List Event) :=
  match env with
  | [] => some []
  | (n, orc) :: rest =>
    match pollLoop orc n 0 fuel with
    | none => none
    | some evs => (delete_all_lambda_functions rest fuel).map
        (fun tl => .deleteFunction n :: (evs ++ tl))

end Lam

namespace OpenSearchTeardown

/-- Events of `delete_all_opensearch_clusters`. -/
inductive Event
  | deleteDomain (name : String)
deriving DecidableEq

/-- The procedure `delete_all_opensearch_clusters`: `list_domain_names` (which
returns every domain in one response), then `delete_domain` per
domain.  No waiter. -/
def delete_all_opensearch_clusters (domains : List String) : List Event :=
  domains.map (fun d => .deleteDomain d)

end OpenSearchTeardown

namespace Eks

/-- The EKS environment: `list_clusters` and `list_nodegroups` are
bare (unpaginated) calls, so their results are modelled as pages and
the script sees only the first page of each. -/
structure Env where
  clusterPages : List (List String)
  nodegroupPages : String → List (List String)

/-- Events of `delete_all_eks_clusters`. -/
inductive Event
  | deleteNodegroup (cluster ng : String)
  | waitNodegroupDeleted (cluster ng : String)
  | deleteCluster (name : String)
  | waitClusterDeleted (name : String)
deriving DecidableEq

/-- Per-cluster body of `delete_all_eks_clusters`: delete every listed
node group, each delete unconditionally followed by the
`nodegroup_deleted` waiter; then `delete_cluster`, followed by the
`cluster_deleted` waiter only when `wait` is set. -/
def processEksCluster (env : Env) (wait : Bool) (c : String) : List Event :=
  (firstPage (env.nodegroupPages c)).flatMap
    (fun g => [.deleteNodegroup c g, .waitNodegroupDeleted c g])
  ++ [.deleteCluster c]
  ++ (if wait then [.waitClusterDeleted c] else [])

/-- The procedure `delete_all_eks_clusters`: iterate the first page of
`list_clusters` and run the per-cluster body. -/
def delete_all_eks_clusters (env : Env) (wait : Bool) : List Event :=
  (firstPage env.clusterPages).flatMap (processEksCluster env wait)

end Eks

namespace Peering

/-- A route record as `describe_route_tables` reports it: either field
may be absent from the record. -/
structure Route where
  VpcPeeringConnectionId : Option String
  DestinationCidrBlock : Option String
deriving DecidableEq

/-- A route table: its id and its routes. -/
structure RouteTable where
  RouteTableId : String
  Routes : List Route
deriving DecidableEq

/-- The EC2 peering environment: `describe_vpc_peering_connections` is
a bare (unpaginated) call, modelled as pages of which only the first
is seen; the region's route tables. -/
structure Env where
  peeringPages : List (List String)
  routeTables : List RouteTable

/-- The uncaught Python faults this procedure can raise: a `KeyError`
from reading a missing dictionary key. -/
inductive Fault
  | keyError
deriving DecidableEq

/-- Events of `delete_all_peering_connections`. -/
inductive Event
  | deleteRoute (tableId cidr : String)
  | deleteVpcPeeringConnection (id : String)
deriving DecidableEq

/-- The listing `describe_route_tables(Filters=[route.vpc-peering-connection-id])`:
the route tables holding at least one route that references the
peering connection. -/
def matchingTables (env : Env) (pcx : String) : List RouteTable :=
  env.routeTables.filter
    (fun t => t.Routes.any (fun r => r.VpcPeeringConnectionId == some pcx))

/-- Inner route loop for one route table: a route whose
`VpcPeeringConnectionId` equals the connection has
`route['DestinationCidrBlock']` read unconditionally — a `KeyError`
when the key is absent — and otherwise gets a `delete_route` call. -/
def deleteRoutesInTable (pcx tid : String) :
    List Route → Except Fault (List Event)
  | [] => .ok []
  | r :: rs =>
    if r.VpcPeeringConnectionId = some pcx then
      match r.DestinationCidrBlock with
      | none => .error .keyError
      | some cidr =>
        (deleteRoutesInTable pcx tid rs).map
          (fun evs => .deleteRoute tid cidr :: evs)
    else deleteRoutesInTable pcx tid rs

/-- Route cleanup over all matching route tables of one connection. -/
def deleteRoutesForConnection (env : Env) (pcx : String) :
    List RouteTable → Except Fault (List Event)
  | [] => .ok []
  | t :: ts =>
    match deleteRoutesInTable pcx t.RouteTableId t.Routes with
    | .error f => .error f
    | .ok evs =>
      (deleteRoutesForConnection env pcx ts).map (fun tl => evs ++ tl)

/-- Per-connection loop body: route cleanup, then
`delete_vpc_peering_connection`. -/
def processConnection (env : Env) (pcx : String) : Except Fault (List Event) :=
  (deleteRoutesForConnection env pcx (matchingTables env pcx)).map
    (fun evs => evs ++ [.deleteVpcPeeringConnection pcx])

/-- Loop of `delete_all_peering_connections` over the listed
connections. -/
def processConnections (env : Env) : List String → Except Fault (List Event)
  | [] => .ok []
  | pcx :: rest =>
    match processConnection env pcx with
    | .error f => .error f
    | .ok evs => (processConnections env rest).map (fun tl => evs ++ tl)

/-- The procedure `delete_all_peering_connections`: iterate the first page of
`describe_vpc_peering_connections`; per connection delete its matching
routes then the connection itself.  An uncaught fault aborts the run. -/
def delete_all_peering_connections (env : Env) : Except Fault (List Event) :=
  processConnections env (firstPage env.peeringPages)

end Peering

namespace Kinesis

/-- The streaming environment: `list_streams` and
`list_delivery_streams` are bare (unpaginated) calls, modelled as
pages of which only the first is seen. -/
structure Env where
  streamPages : List (List String)
  firehosePages : List (List String)

/-- Events of `delete_all_kinesis_streams`. -/
inductive Event
  | deleteStream (name : String)
  | deleteDeliveryStream (name : String)
deriving DecidableEq

/-- The procedure `delete_all_kinesis_streams`: delete the listed data streams (with
consumer deletion enforced), then the listed delivery streams.  No
waiter. -/
def delete_all_kinesis_streams (env : Env) : List Event :=
  (firstPage env.streamPages).map (fun s => .deleteStream s)
  ++ (firstPage env.firehosePages).map (fun s => .deleteDeliveryStream s)

end Kinesis

namespace Ec2

/-- Events of `terminate_all_ec2_instances`. -/
inductive Event
  | terminateInstance (id : String)
  | waitInstanceTerminated (id : String)
deriving DecidableEq

/-- The procedure `terminate_all_ec2_instances`: a paginated `describe_instances`
listing — pages of reservations of instances, every page consumed —
then per instance a terminate call, followed by the
`instance_terminated` waiter when `wait` is set. -/
def terminate_all_ec2_instances (pages : List (List (List String)))
    (wait : Bool) : List Event :=
  pages.flatMap (fun page => page.flatMap (fun reservation =>
    reservation.flatMap (fun i =>
      .terminateInstance i :: (if wait then [.waitInstanceTerminated i] else []))))

end Ec2

namespace Ecs

/-!
The ECS calls are asynchronous on the provider side: `delete_service`
only moves a service into its draining phase and `stop_task` only asks
a task to stop; a waiter is what blocks until the terminal state
(`INACTIVE` / `STOPPED`) is reached.  The embedding makes the
provider-side state explicit and adversarially lazy: a call's immediate
documented effect happens at the call, and a transition to the
terminal state happens only when a waiter blocks on it.
-/

/-- Provider-side status of an ECS service. -/
inductive ServiceStatus
  | ACTIVE
  | DRAINING
  | INACTIVE
deriving DecidableEq

/-- Provider-side status of an ECS task. -/
inductive TaskStatus
  | RUNNING
  | STOPPING
  | STOPPED
deriving DecidableEq

/-- A service of a cluster: name, provider-side status and desired
count. -/
structure Service where
  name : String
  status : ServiceStatus
  desired : Nat
deriving DecidableEq

/-- A task of a cluster: name and provider-side status. -/
structure Task where
  name : String
  status : TaskStatus
deriving DecidableEq

/-- A cluster as listed by the paginated `list_clusters` /
`list_services` / `list_tasks` calls. -/
structure Cluster where
  name : String
  services : List Service
  tasks : List Task
deriving DecidableEq

/-- Events of `delete_all_ecs_clusters`. -/
inductive Event
  | updateServiceZero (cluster svc : String)
  | deleteService (cluster svc : String)
  | waitServicesInactive (cluster svc : String)
  | stopTask (cluster task : String)
  | waitTasksStopped (cluster task : String)
  | deleteCluster (cluster : String)
  | waitClusterDeleted (cluster : String)
deriving DecidableEq

/-- Per-service body: `update_service(desiredCount=0)`, then a forced
`delete_service` (the service starts draining), then — only when
`wait` is set — the `services_inactive` waiter, which blocks until the
service is `INACTIVE`.  Returns the service's provider-side state when
the body finishes, and the emitted events. -/
def processService (wait : Bool) (c : String) (s : Service) :
    Service × List Event :=
  if wait then
    ({ s with desired := 0, status := .INACTIVE },
      [.updateServiceZero c s.name, .deleteService c s.name,
        .waitServicesInactive c s.name])
  else
    ({ s with desired := 0, status := .DRAINING },
      [.updateServiceZero c s.name, .deleteService c s.name])

/-- Per-task body: `stop_task` (the task starts stopping), then — only
when `wait` is set — the `tasks_stopped` waiter, which blocks until the
task is `STOPPED`. -/
def processTask (wait : Bool) (c : String) (t : Task) : Task × List Event :=
  if wait then
    ({ t with status := .STOPPED }, [.stopTask c t.name, .waitTasksStopped c t.name])
  else
    ({ t with status := .STOPPING }, [.stopTask c t.name])

/-- The provider-side state of one cluster's services and tasks
observed at the instant its `delete_cluster` call is issued. -/
structure Snapshot where
  cluster : String
  services : List Service
  tasks : List Task
deriving DecidableEq

/-- Per-cluster body of `delete_all_ecs_clusters`: process every
listed service, then every listed task, then issue `delete_cluster`
(recording the snapshot at that instant), then optionally the
`cluster_deleted` waiter. -/
def processEcsCluster (wait : Bool) (c : Cluster) : Snapshot × List Event :=
  (⟨c.name, c.services.map (fun s => (processService wait c.name s).1),
      c.tasks.map (fun t => (processTask wait c.name t).1)⟩,
    c.services.flatMap (fun s => (processService wait c.name s).2)
    ++ c.tasks.flatMap (fun t => (processTask wait c.name t).2)
    ++ [.deleteCluster c.name]
    ++ (if wait then [.waitClusterDeleted c.name] else []))

/-- The result of a run: the event trace and the snapshot taken at
each cluster's `delete_cluster` call. -/
structure Run where
  trace : List Event
  snapshots : List Snapshot
deriving DecidableEq

/-- The procedure `delete_all_ecs_clusters` over the full paginated cluster
listing. -/
def delete_all_ecs_clusters (env : List Cluster) (wait : Bool) : Run :=
  { trace := env.flatMap (fun c => (processEcsCluster wait c).2),
    snapshots := env.map (fun c => (processEcsCluster wait c).1) }

end Ecs

namespace Driver

/-- One procedure invocation of the `__main__` driver, with the wait
flag it passes (procedures whose signature has no wait flag carry
none). -/
inductive Step
  | autoScalingGroups
  | ecsClusters (wait : Bool)
  | ec2Instances (wait : Bool)
  | lambdaFunctions
  | peeringConnections
  | opensearchClusters
  | kinesisStreams
  | eksClusters (wait : Bool)
  | cloudFormationStacks (wait : Bool)
deriving DecidableEq

/-- The fixed call sequence of the `__main__` block. -/
def mainSequence : List Step :=
  [.autoScalingGroups,
   .ecsClusters true,
   .ec2Instances false,
   .lambdaFunctions,
   .peeringConnections,
   .opensearchClusters,
   .kinesisStreams,
   .eksClusters false,
   .cloudFormationStacks false]

end Driver

/-! Concrete environments used to evaluate the procedures on explicit
inputs. -/

/-- A region with a single protected stack in `DELETE_FAILED` status
whose name contains neither protected substring. -/
def cfnEnvDF : List Cfn.StackSummary :=
  [⟨"legacy-db", .DELETE_FAILED, true⟩]

/-- A region with a single protected stack whose name contains
`AppPipe`. -/
def cfnEnvProt : List Cfn.StackSummary :=
  [⟨"AppPipe-prod", .CREATE_COMPLETE, true⟩]

/-- A region with a single unprotected stack whose name contains
`AppIngestion` but not `AppPipe`. -/
def cfnEnvIngest : List Cfn.StackSummary :=
  [⟨"AppIngestion-app", .CREATE_COMPLETE, false⟩]

/-- A region with one unprotected `AppPipe` stack in `DELETE_FAILED`
status. -/
def cfnEnvPipeDF : List Cfn.StackSummary :=
  [⟨"AppPipe-broken", .DELETE_FAILED, false⟩]

/-- An EKS region with one cluster holding one node group. -/
def eksEnvOne : Eks.Env :=
  ⟨[["c1"]], fun _ => [["g1"]]⟩

/-- An EKS region whose `list_clusters` result spans two pages. -/
def eksEnvTwoPages : Eks.Env :=
  ⟨[["c1"], ["c2"]], fun _ => [[]]⟩

/-- An EKS region with no clusters. -/
def eksEnvEmpty : Eks.Env :=
  ⟨[], fun _ => []⟩

/-- A peering environment with one connection referenced by a route
record that has no `DestinationCidrBlock` key (an IPv6-destination
route). -/
def peeringEnvV6 : Peering.Env :=
  ⟨[["pcx-1"]], [⟨"rtb-1", [⟨some "pcx-1", none⟩]⟩]⟩

/-- A peering environment with no connections. -/
def peeringEnvEmpty : Peering.Env :=
  ⟨[], [⟨"rtb-1", [⟨some "pcx-9", some "10.0.0.0/16"⟩]⟩]⟩

/-- A streaming environment with no streams of either kind. -/
def kinesisEnvEmpty : Kinesis.Env :=
  ⟨[], []⟩

/-- A streaming environment with one data stream and one delivery
stream. -/
def kinesisEnvOne : Kinesis.Env :=
  ⟨[["stream-a"]], [["fh-a"]]⟩

/-- An ECS region with one cluster holding one active service and one
running task. -/
def ecsEnvOne : List Ecs.Cluster :=
  [⟨"clu", [⟨"svc", .ACTIVE, 1⟩], [⟨"tsk", .RUNNING⟩]⟩]

/-- A poll oracle that reports the function as existing on the first
two polls and as not found on the third. -/
def oracleGone2 : Nat → Lam.PollResult :=
  fun j => if j < 2 then .found else .notFound

/-! ## Lemmas about the stack passes -/

namespace Cfn

/-- A `delete_stack` event of a pass comes from a listed stack that
matched the pass's name condition and had termination protection
off. -/
theorem deleteStack_mem_stackPass {p : StackSummary → Bool} {w : Bool}
    {l : List StackSummary} {n : String}
    (h : Event.deleteStack n ∈ stackPass p w l) :
    ∃ s, s ∈ l ∧ s.StackName = n ∧ p s = true ∧
      s.EnableTerminationProtection = false := by
  induction l with
  | nil => simp [stackPass] at h
  | cons s rest ih =>
    rw [stackPass, List.mem_append] at h
    rcases h with h | h
    · by_cases hp : p s
      · simp only [hp, if_true, processStack] at h
        by_cases hprot : s.EnableTerminationProtection
        · simp [hprot] at h
        · simp only [Bool.not_eq_true] at hprot
          simp only [hprot, Bool.false_eq_true, if_false, List.mem_cons] at h
          rcases h with h | h
          · exact ⟨s, by simp, (Event.deleteStack.injEq ..).mp h.symm, hp, hprot⟩
          · cases w <;> simp at h
      · simp [hp] at h
    · obtain ⟨s', hmem, hn, hps, hprot⟩ := ih h
      exact ⟨s', List.mem_cons_of_mem _ hmem, hn, hps, hprot⟩

/-- A listed stack matching the pass's name condition that has
termination protection on is logged as skipped by that pass. -/
theorem skip_mem_stackPass {p : StackSummary → Bool} {w : Bool}
    {l : List StackSummary} {s : StackSummary}
    (hmem : s ∈ l) (hp : p s = true)
    (hprot : s.EnableTerminationProtection = true) :
    Event.skipStack s.StackName ∈ stackPass p w l := by
  induction l with
  | nil => simp at hmem
  | cons a rest ih =>
    rw [stackPass, List.mem_append]
    rcases List.mem_cons.mp hmem with rfl | hmem
    · left
      simp [hp, processStack, hprot]
    · right
      exact ih hmem

/-- A pass acts on exactly the listed stacks matching its name
condition. -/
theorem stackPass_eq_flatMap (p : StackSummary → Bool) (w : Bool)
    (l : List StackSummary) :
    stackPass p w l = (l.filter p).flatMap (processStack w) := by
  induction l with
  | nil => rfl
  | cons s rest ih =>
    rw [stackPass, ih]
    by_cases hp : p s <;> simp [hp, List.filter_cons]

end Cfn

/-! ## Claim theorems about stack teardown -/

open Cfn in
/-- C1 (counterexample): a stack with termination protection enabled,
in `DELETE_FAILED` status, whose name contains neither protected
substring, is returned by the name-filtered pass's listing, yet the
run never logs it as skipped (the claim says every protected listed
stack is logged as skipped). -/
theorem cfn_protected_delete_failed_not_logged :
  (⟨"legacy-db", .DELETE_FAILED, true⟩ : StackSummary) ∈
      list_stacks pass1Filter cfnEnvDF
    ∧ (⟨"legacy-db", .DELETE_FAILED, true⟩ : StackSummary).EnableTerminationProtection = true
    ∧ Event.skipStack "legacy-db" ∉ delete_all_stacks cfnEnvDF true
    ∧ Event.deleteStack "legacy-db" ∉ delete_all_stacks cfnEnvDF true := by
  decide

open Cfn in
/-- C1 (amended): no `delete_stack` call is ever issued for a stack
with termination protection enabled, in either pass; and a protected
stack is logged as skipped by every pass whose status filter and name
condition both admit it. -/
theorem cfn_protected_never_deleted (env : List StackSummary) (w : Bool) :
    (∀ n, Event.deleteStack n ∈ delete_all_stacks env w →
      ∃ s, s ∈ env ∧ s.StackName = n ∧ s.EnableTerminationProtection = false)
    ∧ (∀ s, s ∈ env → s.EnableTerminationProtection = true →
        (s.status ∈ pass1Filter → pass1Name s = true →
          Event.skipStack s.StackName ∈ delete_all_stacks env w)
        ∧ (s.status ∈ pass2Filter → pass2Name s = true →
          Event.skipStack s.StackName ∈ delete_all_stacks env w)) := by
  constructor
  · intro n h
    rw [delete_all_stacks, List.mem_append] at h
    rcases h with h | h <;>
      obtain ⟨s, hmem, hn, -, hprot⟩ := deleteStack_mem_stackPass h <;>
      exact ⟨s, (List.mem_filter.mp hmem).1, hn, hprot⟩
  · intro s hmem hprot
    constructor
    · intro hst hname
      rw [delete_all_stacks, List.mem_append]
      exact Or.inl (skip_mem_stackPass
        (List.mem_filter.mpr ⟨hmem, by simpa using hst⟩) hname hprot)
    · intro hst hname
      rw [delete_all_stacks, List.mem_append]
      exact Or.inr (skip_mem_stackPass
        (List.mem_filter.mpr ⟨hmem, by simpa using hst⟩) hname hprot)

open Cfn in
/-- Witness for the amended C1: on a region holding one protected
`AppPipe` stack, the run logs the stack as skipped and issues no
delete call. -/
theorem cfn_protected_never_deleted_witness :
    Event.skipStack "AppPipe-prod" ∈ delete_all_stacks cfnEnvProt true := by
  exact ((cfn_protected_never_deleted cfnEnvProt true).2
    ⟨"AppPipe-prod", .CREATE_COMPLETE, true⟩ (by decide) (by decide)).1
    (by decide) (by decide)

open Cfn in
/-- C5 (counterexample): an unprotected stack whose name contains
`AppIngestion` (and not `AppPipe`) is deleted by the name-filtered
pass and then deleted again by the general pass, whose condition only
excludes `AppPipe` (the claim says no stack containing either
protected substring is processed again in the general pass). -/
theorem cfn_appingestion_processed_twice :
    strContains "AppIngestion-app" "AppIngestion" = true
    ∧ Event.deleteStack "AppIngestion-app" ∈
        stackPass pass1Name false (list_stacks pass1Filter cfnEnvIngest)
    ∧ Event.deleteStack "AppIngestion-app" ∈
        stackPass pass2Name false (list_stacks pass2Filter cfnEnvIngest) := by
  decide

open Cfn in
/-- C5 (amended): the run is the name-filtered pass followed by the
general pass; the first pass acts on exactly the listed stacks whose
name contains `AppPipe` or `AppIngestion`, the second on exactly the
listed stacks whose name does not contain `AppPipe` — so a stack whose
name contains `AppIngestion` but not `AppPipe` is acted on by both
passes. -/
theorem cfn_two_pass_structure (env : List StackSummary) (w : Bool) :
    delete_all_stacks env w
      = ((list_stacks pass1Filter env).filter pass1Name).flatMap (processStack w)
        ++ ((list_stacks pass2Filter env).filter pass2Name).flatMap (processStack w)
    ∧ (∀ s, s ∈ (list_stacks pass1Filter env).filter pass1Name ↔
        s ∈ env ∧ s.status ∈ pass1Filter ∧
          (strContains s.StackName "AppPipe" || strContains s.StackName "AppIngestion") = true)
    ∧ (∀ s, s ∈ (list_stacks pass2Filter env).filter pass2Name ↔
        s ∈ env ∧ s.status ∈ pass2Filter ∧ strContains s.StackName "AppPipe" = false)
    ∧ (∀ s, s ∈ env → s.status ∈ pass2Filter →
        strContains s.StackName "AppIngestion" = true →
        strContains s.StackName "AppPipe" = false →
        s ∈ (list_stacks pass1Filter env).filter pass1Name ∧
          s ∈ (list_stacks pass2Filter env).filter pass2Name) := by
  refine ⟨?_, ?_, ?_, ?_⟩
  · rw [delete_all_stacks, stackPass_eq_flatMap, stackPass_eq_flatMap]
  · intro s
    simp only [List.mem_filter, list_stacks, pass1Name, Bool.or_eq_true,
      decide_eq_true_eq]
    tauto
  · intro s
    simp only [List.mem_filter, list_stacks, pass2Name, Bool.not_eq_true',
      decide_eq_true_eq]
    tauto
  · intro s hmem hst hing hpipe
    have hst' := hst
    simp only [pass2Filter, List.mem_cons, List.not_mem_nil, or_false] at hst'
    have hst1 : s.status ∈ pass1Filter := by
      rcases hst' with h | h | h <;> simp [pass1Filter, h]
    constructor
    · exact List.mem_filter.mpr ⟨List.mem_filter.mpr ⟨hmem, by simpa using hst1⟩,
        by simp [pass1Name, hing]⟩
    · exact List.mem_filter.mpr ⟨List.mem_filter.mpr ⟨hmem, by simpa using hst⟩,
        by simp [pass2Name, hpipe]⟩

open Cfn in
/-- Witness for the amended C5: the unprotected `AppIngestion-app`
stack is selected by both passes. -/
theorem cfn_two_pass_structure_witness :
    (⟨"AppIngestion-app", .CREATE_COMPLETE, false⟩ : StackSummary) ∈
        (list_stacks pass1Filter cfnEnvIngest).filter pass1Name
    ∧ (⟨"AppIngestion-app", .CREATE_COMPLETE, false⟩ : StackSummary) ∈
        (list_stacks pass2Filter cfnEnvIngest).filter pass2Name := by
  exact (cfn_two_pass_structure cfnEnvIngest false).2.2.2
    ⟨"AppIngestion-app", .CREATE_COMPLETE, false⟩
    (by decide) (by decide) (by decide) (by decide)

open Cfn in
/-- C9: the name-filtered pass's status filter includes
`DELETE_FAILED` while the general pass's omits it, so a `DELETE_FAILED`
stack receives a delete call only when its name contains a protected
substring. -/
theorem cfn_delete_failed_needs_protected_name (env : List StackSummary)
    (w : Bool) (n : String)
    (hdel : Event.deleteStack n ∈ delete_all_stacks env w)
    (hdf : ∀ s, s ∈ env → s.StackName = n → s.status = StackStatus.DELETE_FAILED) :
    StackStatus.DELETE_FAILED ∈ pass1Filter
    ∧ StackStatus.DELETE_FAILED ∉ pass2Filter
    ∧ (strContains n "AppPipe" || strContains n "AppIngestion") = true := by
  refine ⟨by decide, by decide, ?_⟩
  rw [delete_all_stacks, List.mem_append] at hdel
  rcases hdel with h | h
  · obtain ⟨s, hmem, hn, hps, -⟩ := deleteStack_mem_stackPass h
    rw [← hn]
    simpa [pass1Name] using hps
  · obtain ⟨s, hmem, hn, -, -⟩ := deleteStack_mem_stackPass h
    have hin := List.mem_filter.mp hmem
    have := hdf s hin.1 hn
    rw [this] at hin
    simp [pass2Filter] at hin

open Cfn in
/-- Witness for C9: a region with one unprotected `DELETE_FAILED`
stack named `AppPipe-broken` — it is deleted, and indeed its name
contains a protected substring. -/
theorem cfn_delete_failed_needs_protected_name_witness :
    (strContains "AppPipe-broken" "AppPipe"
      || strContains "AppPipe-broken" "AppIngestion") = true := by
  exact (cfn_delete_failed_needs_protected_name cfnEnvPipeDF false "AppPipe-broken"
    (by decide) (by decide)).2.2

/-! ## Claim theorems about EKS teardown -/

/-- C2: for every cluster of the listing and every node group of that
cluster's listing, the trace splits as: the `delete_nodegroup` call,
immediately followed by the unconditional `nodegroup_deleted` waiter,
with the cluster's `delete_cluster` call strictly later — for either
value of the cluster-level wait flag. -/
theorem eks_nodegroup_wait_precedes_cluster_delete (env : Eks.Env) (w : Bool)
    (c g : String)
    (hc : c ∈ firstPage env.clusterPages)
    (hg : g ∈ firstPage (env.nodegroupPages c)) :
    ∃ t1 t2 t3, Eks.delete_all_eks_clusters env w
      = t1 ++ (Eks.Event.deleteNodegroup c g ::
          Eks.Event.waitNodegroupDeleted c g ::
            (t2 ++ (Eks.Event.deleteCluster c :: t3))) := by
  obtain ⟨p1, p2, hp⟩ := List.append_of_mem hc
  obtain ⟨l1, l2, hl⟩ := List.append_of_mem hg
  refine ⟨p1.flatMap (Eks.processEksCluster env w)
      ++ l1.flatMap (fun g' =>
          [Eks.Event.deleteNodegroup c g', Eks.Event.waitNodegroupDeleted c g']),
    l2.flatMap (fun g' =>
      [Eks.Event.deleteNodegroup c g', Eks.Event.waitNodegroupDeleted c g']),
    (if w then [Eks.Event.waitClusterDeleted c] else [])
      ++ p2.flatMap (Eks.processEksCluster env w), ?_⟩
  rw [Eks.delete_all_eks_clusters, hp]
  simp only [List.flatMap_append, List.flatMap_cons]
  rw [Eks.processEksCluster, hl]
  simp [List.flatMap_append, List.flatMap_cons, List.append_assoc]

/-- Witness for C2 on a region with one cluster holding one node
group. -/
theorem eks_nodegroup_wait_precedes_cluster_delete_witness :
    ∃ t1 t2 t3, Eks.delete_all_eks_clusters eksEnvOne false
      = t1 ++ (Eks.Event.deleteNodegroup "c1" "g1" ::
          Eks.Event.waitNodegroupDeleted "c1" "g1" ::
            (t2 ++ (Eks.Event.deleteCluster "c1" :: t3))) := by
  exact eks_nodegroup_wait_precedes_cluster_delete eksEnvOne false "c1" "g1"
    (by decide) (by decide)

/-! ## Lemmas and claim theorems about listing pagination -/

/-- A `delete_cluster` event of the per-cluster body names exactly
that cluster. -/
theorem deleteCluster_mem_processEksCluster {env : Eks.Env} {w : Bool}
    {c' c : String} :
    Eks.Event.deleteCluster c' ∈ Eks.processEksCluster env w c ↔ c' = c := by
  cases w <;> simp [Eks.processEksCluster]

/-- Route cleanup emits only `delete_route` events. -/
theorem deleteRoutesInTable_only_routes {pcx tid : String} {rs : List Peering.Route}
    {evs : List Peering.Event} {p : String}
    (h : Peering.deleteRoutesInTable pcx tid rs = .ok evs) :
    Peering.Event.deleteVpcPeeringConnection p ∉ evs := by
  induction rs generalizing evs with
  | nil =>
    simp only [Peering.deleteRoutesInTable] at h
    cases h
    simp
  | cons r rest ih =>
    rw [Peering.deleteRoutesInTable] at h
    split at h
    · cases hc : r.DestinationCidrBlock with
      | none => rw [hc] at h; cases h
      | some cidr =>
        rw [hc] at h
        cases hrec : Peering.deleteRoutesInTable pcx tid rest with
        | error f => rw [hrec] at h; cases h
        | ok evs' =>
          rw [hrec] at h
          cases h
          intro hmem
          rcases List.mem_cons.mp hmem with h' | h'
          · cases h'
          · exact ih hrec h'
    · exact ih h

/-- Route cleanup over the matching tables emits only `delete_route`
events. -/
theorem deleteRoutesForConnection_only_routes {env : Peering.Env} {pcx : String}
    {ts : List Peering.RouteTable} {evs : List Peering.Event} {p : String}
    (h : Peering.deleteRoutesForConnection env pcx ts = .ok evs) :
    Peering.Event.deleteVpcPeeringConnection p ∉ evs := by
  induction ts generalizing evs with
  | nil =>
    simp only [Peering.deleteRoutesForConnection] at h
    cases h
    simp
  | cons t rest ih =>
    rw [Peering.deleteRoutesForConnection] at h
    cases ht : Peering.deleteRoutesInTable pcx t.RouteTableId t.Routes with
    | error f => rw [ht] at h; cases h
    | ok evs1 =>
      rw [ht] at h
      cases hrec : Peering.deleteRoutesForConnection env pcx rest with
      | error f => rw [hrec] at h; cases h
      | ok evs2 =>
        rw [hrec] at h
        cases h
        intro hmem
        rcases List.mem_append.mp hmem with h' | h'
        · exact deleteRoutesInTable_only_routes ht h'
        · exact ih hrec h'

/-- A `delete_vpc_peering_connection` event of a successful run names
one of the connections from the consumed (first) listing page. -/
theorem deletePcx_mem_processConnections {env : Peering.Env}
    {l : List String} {evs : List Peering.Event} {p : String}
    (h : Peering.processConnections env l = .ok evs)
    (hmem : Peering.Event.deleteVpcPeeringConnection p ∈ evs) :
    p ∈ l := by
  induction l generalizing evs with
  | nil =>
    simp only [Peering.processConnections] at h
    cases h
    simp at hmem
  | cons pcx rest ih =>
    rw [Peering.processConnections] at h
    cases hpc : Peering.processConnection env pcx with
    | error f => rw [hpc] at h; cases h
    | ok evs1 =>
      rw [hpc] at h
      cases hrec : Peering.processConnections env rest with
      | error f => rw [hrec] at h; cases h
      | ok evs2 =>
        rw [hrec] at h
        cases h
        rcases List.mem_append.mp hmem with h' | h'
        · rw [Peering.processConnection] at hpc
          cases hroutes : Peering.deleteRoutesForConnection env pcx
              (Peering.matchingTables env pcx) with
          | error f => rw [hroutes] at hpc; cases hpc
          | ok revs =>
            rw [hroutes] at hpc
            cases hpc
            rcases List.mem_append.mp h' with h'' | h''
            · exact absurd h'' (deleteRoutesForConnection_only_routes hroutes)
            · simp only [List.mem_singleton] at h''
              cases h''
              exact List.mem_cons_self ..
        · exact List.mem_cons_of_mem _ (ih hrec h')

/-- C7 (counterexample): with a two-page `list_clusters` result, the
cluster on the second page exists in the region but receives no
`delete_cluster` call — the bare (unpaginated) listing call is not
the paginated listing the claim asserts. -/
theorem eks_second_page_cluster_not_deleted :
    "c2" ∈ eksEnvTwoPages.clusterPages.flatten
    ∧ Eks.Event.deleteCluster "c2" ∉
        Eks.delete_all_eks_clusters eksEnvTwoPages false := by
  decide

/-- C7 (amended): the procedures built on `get_paginator` (stacks,
Auto Scaling groups, EC2 instances, Lambda functions, ECS clusters)
consume every page of their listings, and `list_domain_names` returns
every domain; but the EKS, peering and Kinesis/Firehose procedures
issue bare single-shot listing calls and act on exactly the first page
of results. -/
theorem listing_pagination (pages : List (List String))
    (rpages : List (List (List String))) (w : Bool)
    (eksEnv : Eks.Env) (kEnv : Kinesis.Env) (pEnv : Peering.Env)
    (domains : List String) :
    (∀ g, g ∈ pages.flatten →
      Asg.Event.deleteAutoScalingGroup g ∈ Asg.delete_all_auto_scaling_groups pages)
    ∧ (∀ i, i ∈ rpages.flatten.flatten →
      Ec2.Event.terminateInstance i ∈ Ec2.terminate_all_ec2_instances rpages w)
    ∧ (∀ d, d ∈ domains →
      OpenSearchTeardown.Event.deleteDomain d ∈
        OpenSearchTeardown.delete_all_opensearch_clusters domains)
    ∧ (∀ c, Eks.Event.deleteCluster c ∈ Eks.delete_all_eks_clusters eksEnv w ↔
        c ∈ firstPage eksEnv.clusterPages)
    ∧ (∀ s, Kinesis.Event.deleteStream s ∈ Kinesis.delete_all_kinesis_streams kEnv ↔
        s ∈ firstPage kEnv.streamPages)
    ∧ (∀ evs p, Peering.delete_all_peering_connections pEnv = .ok evs →
        Peering.Event.deleteVpcPeeringConnection p ∈ evs →
        p ∈ firstPage pEnv.peeringPages) := by
  refine ⟨?_, ?_, ?_, ?_, ?_, ?_⟩
  · intro g hg
    rw [List.mem_flatten] at hg
    obtain ⟨page, hpage, hgp⟩ := hg
    rw [Asg.delete_all_auto_scaling_groups, List.mem_flatMap]
    exact ⟨page, hpage, List.mem_map_of_mem _ hgp⟩
  · intro i hi
    rw [List.mem_flatten] at hi
    obtain ⟨res, hres, hir⟩ := hi
    rw [List.mem_flatten] at hres
    obtain ⟨page, hpage, hrp⟩ := hres
    rw [Ec2.terminate_all_ec2_instances, List.mem_flatMap]
    refine ⟨page, hpage, ?_⟩
    rw [List.mem_flatMap]
    refine ⟨res, hrp, ?_⟩
    rw [List.mem_flatMap]
    exact ⟨i, hir, List.mem_cons_self ..⟩
  · intro d hd
    exact List.mem_map_of_mem _ hd
  · intro c
    simp only [Eks.delete_all_eks_clusters, List.mem_flatMap,
      deleteCluster_mem_processEksCluster]
    constructor
    · rintro ⟨c', hc', rfl⟩
      exact hc'
    · intro hc
      exact ⟨c, hc, rfl⟩
  · intro s
    simp [Kinesis.delete_all_kinesis_streams]
  · intro evs p h hmem
    exact deletePcx_mem_processConnections h hmem

/-- Witness for the amended C7: on concrete environments, an Auto
Scaling group on a second listing page is still deleted, while a
Kinesis stream is deleted exactly when it is on the first page. -/
theorem listing_pagination_witness :
    Asg.Event.deleteAutoScalingGroup "asg-b" ∈
      Asg.delete_all_auto_scaling_groups [["asg-a"], ["asg-b"]]
    ∧ (Kinesis.Event.deleteStream "stream-a" ∈
        Kinesis.delete_all_kinesis_streams kinesisEnvOne ↔
      "stream-a" ∈ firstPage kinesisEnvOne.streamPages) := by
  exact ⟨(listing_pagination [["asg-a"], ["asg-b"]] [] false eksEnvEmpty
      kinesisEnvEmpty peeringEnvEmpty []).1 "asg-b" (by decide),
    (listing_pagination [] [] false eksEnvEmpty kinesisEnvOne peeringEnvEmpty
      []).2.2.2.2.1 "stream-a"⟩

/-! ## Lemmas and claim theorem about the peering route fault -/

/-- The route loop over one table faults with a `KeyError` as soon as
it holds a matching route without a `DestinationCidrBlock` key. -/
theorem deleteRoutesInTable_error {pcx tid : String} {rs : List Peering.Route}
    {r : Peering.Route} (hr : r ∈ rs)
    (hid : r.VpcPeeringConnectionId = some pcx)
    (hcidr : r.DestinationCidrBlock = none) :
    Peering.deleteRoutesInTable pcx tid rs = .error .keyError := by
  induction rs with
  | nil => simp at hr
  | cons a rest ih =>
    rw [Peering.deleteRoutesInTable]
    rcases List.mem_cons.mp hr with rfl | hr
    · rw [if_pos hid, hcidr]
    · split
      · cases hc : a.DestinationCidrBlock with
        | none => rfl
        | some cidr => rw [ih hr]; rfl
      · exact ih hr

/-- The table loop of one connection faults when any of its tables
makes the route loop fault. -/
theorem deleteRoutesForConnection_error {env : Peering.Env} {pcx : String}
    {ts : List Peering.RouteTable} {t : Peering.RouteTable} (ht : t ∈ ts)
    (herr : Peering.deleteRoutesInTable pcx t.RouteTableId t.Routes
      = .error .keyError) :
    Peering.deleteRoutesForConnection env pcx ts = .error .keyError := by
  induction ts with
  | nil => simp at ht
  | cons a rest ih =>
    rw [Peering.deleteRoutesForConnection]
    rcases List.mem_cons.mp ht with rfl | ht
    · rw [herr]
    · cases ha : Peering.deleteRoutesInTable pcx a.RouteTableId a.Routes with
      | error f => cases f; rfl
      | ok evs => rw [ih ht]; rfl

/-- The connection loop faults when any listed connection's processing
faults. -/
theorem processConnections_error {env : Peering.Env} {l : List String}
    {pcx : String} (hp : pcx ∈ l)
    (herr : Peering.processConnection env pcx = .error .keyError) :
    Peering.processConnections env l = .error .keyError := by
  induction l with
  | nil => simp at hp
  | cons a rest ih =>
    rw [Peering.processConnections]
    rcases List.mem_cons.mp hp with rfl | hp
    · rw [herr]
    · cases ha : Peering.processConnection env a with
      | error f => cases f; rfl
      | ok evs => rw [ih hp]; rfl

/-- C10: a route of a matching route table that references the
connection being deleted but carries no `DestinationCidrBlock` key
(e.g. an IPv6-destination route) makes the whole procedure fault with
an uncaught `KeyError` instead of being skipped. -/
theorem peering_missing_cidr_key_faults (env : Peering.Env) (pcx : String)
    (t : Peering.RouteTable) (r : Peering.Route)
    (hpcx : pcx ∈ firstPage env.peeringPages)
    (ht : t ∈ Peering.matchingTables env pcx)
    (hr : r ∈ t.Routes)
    (hid : r.VpcPeeringConnectionId = some pcx)
    (hcidr : r.DestinationCidrBlock = none) :
    Peering.delete_all_peering_connections env = .error .keyError := by
  refine processConnections_error hpcx ?_
  rw [Peering.processConnection,
    deleteRoutesForConnection_error ht (deleteRoutesInTable_error hr hid hcidr)]
  rfl

/-- Witness for C10: one peering connection whose matching route table
holds a single matching route without a `DestinationCidrBlock` key —
the run faults. -/
theorem peering_missing_cidr_key_faults_witness :
    Peering.delete_all_peering_connections peeringEnvV6 = .error .keyError := by
  exact peering_missing_cidr_key_faults peeringEnvV6 "pcx-1"
    ⟨"rtb-1", [⟨some "pcx-1", none⟩]⟩ ⟨some "pcx-1", none⟩
    (by decide) (by decide) (by decide) (by decide) (by decide)

/-! ## Lemmas and claim theorem about the Lambda polling loop -/

/-- One unfolding of the polling loop when the poll finds the
function: a 5-second sleep, then the loop continues at the next poll
index. -/
theorem pollLoop_found_step {oracle : Nat → Lam.PollResult} {name : String}
    {start : Nat} (fuel : Nat) (h0 : oracle start = .found) :
    Lam.pollLoop oracle name start (fuel + 1)
      = (Lam.pollLoop oracle name (start + 1) fuel).map
          (fun evs => Lam.Event.sleepSeconds 5 :: evs) := by
  simp only [Lam.pollLoop, h0]

/-- Running the polling loop with exactly enough fuel: after `k` polls
that found the function (each followed by a 5-second sleep), the
outcome of poll `k` decides the loop: not-found logs the deletion,
any other error logs the error, and still-found exhausts the fuel. -/
theorem pollLoop_run (oracle : Nat → Lam.PollResult) (name : String) :
    ∀ (k start : Nat), (∀ j, j < k → oracle (start + j) = .found) →
    Lam.pollLoop oracle name start (k + 1)
      = match oracle (start + k) with
        | .found => none
        | .notFound => some (List.replicate k (Lam.Event.sleepSeconds 5)
            ++ [Lam.Event.loggedDeleted name])
        | .otherError => some (List.replicate k (Lam.Event.sleepSeconds 5)
            ++ [Lam.Event.loggedError name])
  | 0, start, _ => by
    rw [Nat.add_zero]
    cases horc : oracle start <;> simp [Lam.pollLoop, horc]
  | k + 1, start, h => by
    have h0 : oracle start = .found := by simpa using h 0 (Nat.succ_pos k)
    have hstep : ∀ j, j < k → oracle (start + 1 + j) = .found := by
      intro j hj
      have := h (j + 1) (Nat.succ_lt_succ hj)
      rwa [show start + (j + 1) = start + 1 + j by omega] at this
    rw [pollLoop_found_step (k + 1) h0,
      pollLoop_run oracle name k (start + 1) hstep,
      show start + 1 + k = start + (k + 1) by omega]
    cases horc : oracle (start + (k + 1)) <;>
      simp [horc, List.replicate_succ]

/-- With an oracle that always finds the function, the polling loop
never terminates: it returns `none` for every amount of fuel. -/
theorem pollLoop_never (oracle : Nat → Lam.PollResult) (name : String)
    (hall : ∀ j, oracle j = .found) :
    ∀ fuel start, Lam.pollLoop oracle name start fuel = none := by
  intro fuel
  induction fuel with
  | zero => intro start; rfl
  | succ n ih => intro start; simp [Lam.pollLoop, hall start, ih]

/-- Every function of the listing receives its `delete_function` call
whenever the run completes — an abandoned poll does not stop the
procedure from moving to the next function. -/
theorem lambda_run_covers {env : List (String × (Nat → Lam.PollResult))}
    {fuel : Nat} {tr : List Lam.Event}
    (h : Lam.delete_all_lambda_functions env fuel = some tr) :
    ∀ p, p ∈ env → Lam.Event.deleteFunction p.1 ∈ tr := by
  induction env generalizing tr with
  | nil => simp
  | cons hd rest ih =>
    rw [Lam.delete_all_lambda_functions] at h
    cases hpl : Lam.pollLoop hd.2 hd.1 0 fuel with
    | none => rw [hpl] at h; cases h
    | some evs =>
      rw [hpl] at h
      cases hrec : Lam.delete_all_lambda_functions rest fuel with
      | none => rw [hrec] at h; cases h
      | some tl =>
        rw [hrec] at h
        cases h
        intro p hp
        rcases List.mem_cons.mp hp with rfl | hp
        · exact List.mem_cons_self ..
        · exact List.mem_cons_of_mem _
            (List.mem_append_right _ (ih hrec p hp))

/-- C6: after `delete_function`, polling runs at a fixed 5-second
interval with unbounded retries; a not-found poll terminates the loop
logging the deletion as success, any other fault terminates it logging
the error and the procedure still reaches every remaining function. -/
theorem lambda_poll_behaviour (oracle : Nat → Lam.PollResult) (name : String)
    (k : Nat) (hk : ∀ j, j < k → oracle j = .found) :
    (oracle k = .notFound →
      Lam.pollLoop oracle name 0 (k + 1)
        = some (List.replicate k (Lam.Event.sleepSeconds 5)
            ++ [Lam.Event.loggedDeleted name]))
    ∧ (oracle k = .otherError →
      Lam.pollLoop oracle name 0 (k + 1)
        = some (List.replicate k (Lam.Event.sleepSeconds 5)
            ++ [Lam.Event.loggedError name]))
    ∧ ((∀ j, oracle j = .found) →
        ∀ fuel, Lam.pollLoop oracle name 0 fuel = none)
    ∧ (∀ (env : List (String × (Nat → Lam.PollResult))) (fuel : Nat)
        (tr : List Lam.Event),
        Lam.delete_all_lambda_functions env fuel = some tr →
        ∀ p, p ∈ env → Lam.Event.deleteFunction p.1 ∈ tr) := by
  have hbase : ∀ j, j < k → oracle (0 + j) = .found := by
    intro j hj
    rw [Nat.zero_add]
    exact hk j hj
  refine ⟨?_, ?_, ?_, ?_⟩
  · intro horc
    rw [pollLoop_run oracle name k 0 hbase, Nat.zero_add, horc]
  · intro horc
    rw [pollLoop_run oracle name k 0 hbase, Nat.zero_add, horc]
  · intro hall fuel
    exact pollLoop_never oracle name hall fuel 0
  · intro env fuel tr h
    exact lambda_run_covers h

/-- Witness for C6: with an oracle that reports the function gone on
the third poll, the loop sleeps twice for 5 seconds and logs the
deletion. -/
theorem lambda_poll_behaviour_witness :
    Lam.pollLoop oracleGone2 "f1" 0 3
      = some (List.replicate 2 (Lam.Event.sleepSeconds 5)
          ++ [Lam.Event.loggedDeleted "f1"]) := by
  exact (lambda_poll_behaviour oracleGone2 "f1" 2 (by decide)).1 (by decide)

/-! ## Lemmas and claim theorems about ECS teardown -/

/-- The events of the per-service body: scale to zero, force-delete,
and the `services_inactive` waiter only when `wait` is set. -/
theorem processService_events (w : Bool) (c : String) (s : Ecs.Service) :
    (Ecs.processService w c s).2
      = Ecs.Event.updateServiceZero c s.name :: Ecs.Event.deleteService c s.name ::
          (if w then [Ecs.Event.waitServicesInactive c s.name] else []) := by
  cases w <;> rfl

/-- The events of the per-task body: stop, and the `tasks_stopped`
waiter only when `wait` is set. -/
theorem processTask_events (w : Bool) (c : String) (t : Ecs.Task) :
    (Ecs.processTask w c t).2
      = Ecs.Event.stopTask c t.name ::
          (if w then [Ecs.Event.waitTasksStopped c t.name] else []) := by
  cases w <;> rfl

/-- The events of the per-cluster body, in order: all service events,
all task events, the cluster delete, the optional cluster waiter. -/
theorem processEcsCluster_events (w : Bool) (c : Ecs.Cluster) :
    (Ecs.processEcsCluster w c).2
      = c.services.flatMap (fun s => (Ecs.processService w c.name s).2)
        ++ c.tasks.flatMap (fun t => (Ecs.processTask w c.name t).2)
        ++ [Ecs.Event.deleteCluster c.name]
        ++ (if w then [Ecs.Event.waitClusterDeleted c.name] else []) := rfl

/-- The snapshot of the per-cluster body: each listed service and task
in the provider-side state the per-resource body left it in. -/
theorem processEcsCluster_snapshot (w : Bool) (c : Ecs.Cluster) :
    (Ecs.processEcsCluster w c).1
      = ⟨c.name, c.services.map (fun s => (Ecs.processService w c.name s).1),
          c.tasks.map (fun t => (Ecs.processTask w c.name t).1)⟩ := rfl

/-- C3 (counterexample): with the wait flag off, at the instant the
cluster's `delete_cluster` call is issued the just-deleted service is
still draining and the just-stopped task still stopping — the cluster
is not empty for every value of the wait flag, as the claim states. -/
theorem ecs_not_cleared_without_wait :
    ∃ snap ∈ (Ecs.delete_all_ecs_clusters ecsEnvOne false).snapshots,
      ¬ ((∀ s ∈ snap.services, s.status = Ecs.ServiceStatus.INACTIVE)
        ∧ (∀ t ∈ snap.tasks, t.status = Ecs.TaskStatus.STOPPED)) := by
  decide

/-- C3 (amended): for every cluster, every listed service's
`delete_service` call and every listed task's `stop_task` call are
issued strictly before the cluster's `delete_cluster` call, for either
value of the wait flag; and when the wait flag is true every listed
service has reached `INACTIVE` and every listed task `STOPPED` at the
instant the cluster delete is issued. -/
theorem ecs_cleanup_order (env : List Ecs.Cluster) (w : Bool) :
    (∀ c, c ∈ env → ∀ s, s ∈ c.services →
      ∃ t1 t2 t3, (Ecs.delete_all_ecs_clusters env w).trace
        = t1 ++ (Ecs.Event.deleteService c.name s.name ::
            (t2 ++ (Ecs.Event.deleteCluster c.name :: t3))))
    ∧ (∀ c, c ∈ env → ∀ t, t ∈ c.tasks →
      ∃ t1 t2 t3, (Ecs.delete_all_ecs_clusters env w).trace
        = t1 ++ (Ecs.Event.stopTask c.name t.name ::
            (t2 ++ (Ecs.Event.deleteCluster c.name :: t3))))
    ∧ (w = true → ∀ snap, snap ∈ (Ecs.delete_all_ecs_clusters env w).snapshots →
        (∀ s, s ∈ snap.services → s.status = Ecs.ServiceStatus.INACTIVE)
        ∧ (∀ t, t ∈ snap.tasks → t.status = Ecs.TaskStatus.STOPPED)) := by
  refine ⟨?_, ?_, ?_⟩
  · intro c hc s hs
    obtain ⟨e1, e2, he⟩ := List.append_of_mem hc
    obtain ⟨l1, l2, hl⟩ := List.append_of_mem hs
    refine ⟨e1.flatMap (fun c' => (Ecs.processEcsCluster w c').2)
        ++ (l1.flatMap (fun s' => (Ecs.processService w c.name s').2)
          ++ [Ecs.Event.updateServiceZero c.name s.name]),
      (if w then [Ecs.Event.waitServicesInactive c.name s.name] else [])
        ++ l2.flatMap (fun s' => (Ecs.processService w c.name s').2)
        ++ c.tasks.flatMap (fun t => (Ecs.processTask w c.name t).2),
      (if w then [Ecs.Event.waitClusterDeleted c.name] else [])
        ++ e2.flatMap (fun c' => (Ecs.processEcsCluster w c').2), ?_⟩
    rw [Ecs.delete_all_ecs_clusters]
    simp only [he, List.flatMap_append, List.flatMap_cons]
    rw [processEcsCluster_events w c, hl]
    simp only [List.flatMap_append, List.flatMap_cons, processService_events]
    simp [List.append_assoc]
  · intro c hc t ht
    obtain ⟨e1, e2, he⟩ := List.append_of_mem hc
    obtain ⟨l1, l2, hl⟩ := List.append_of_mem ht
    refine ⟨e1.flatMap (fun c' => (Ecs.processEcsCluster w c').2)
        ++ (c.services.flatMap (fun s => (Ecs.processService w c.name s).2)
          ++ l1.flatMap (fun t' => (Ecs.processTask w c.name t').2)),
      (if w then [Ecs.Event.waitTasksStopped c.name t.name] else [])
        ++ l2.flatMap (fun t' => (Ecs.processTask w c.name t').2),
      (if w then [Ecs.Event.waitClusterDeleted c.name] else [])
        ++ e2.flatMap (fun c' => (Ecs.processEcsCluster w c').2), ?_⟩
    rw [Ecs.delete_all_ecs_clusters]
    simp only [he, List.flatMap_append, List.flatMap_cons]
    rw [processEcsCluster_events w c, hl]
    simp only [List.flatMap_append, List.flatMap_cons, processTask_events]
    simp [List.append_assoc]
  · rintro rfl snap hsnap
    rw [Ecs.delete_all_ecs_clusters] at hsnap
    simp only [List.mem_map] at hsnap
    obtain ⟨c, -, rfl⟩ := hsnap
    rw [processEcsCluster_snapshot]
    constructor
    · intro s hs
      simp only [List.mem_map] at hs
      obtain ⟨s0, -, rfl⟩ := hs
      rfl
    · intro t ht
      simp only [List.mem_map] at ht
      obtain ⟨t0, -, rfl⟩ := ht
      rfl

/-- Witness for the amended C3: on a region with one cluster, one
service and one task, the service's delete call precedes the cluster
delete call in the trace. -/
theorem ecs_cleanup_order_witness :
    ∃ t1 t2 t3, (Ecs.delete_all_ecs_clusters ecsEnvOne true).trace
      = t1 ++ (Ecs.Event.deleteService "clu" "svc" ::
          (t2 ++ (Ecs.Event.deleteCluster "clu" :: t3))) := by
  exact (ecs_cleanup_order ecsEnvOne true).1
    ⟨"clu", [⟨"svc", .ACTIVE, 1⟩], [⟨"tsk", .RUNNING⟩]⟩ (by decide)
    ⟨"svc", .ACTIVE, 1⟩ (by decide)

/-! ## Claim theorem about the driver ordering -/

/-- C4: the `__main__` driver invokes the teardown procedures in
exactly the documented order — Auto Scaling groups, ECS clusters, EC2
instances with wait disabled, Lambda functions, peering connections,
OpenSearch clusters, Kinesis/Firehose streams, EKS clusters, and
finally CloudFormation stacks with wait disabled. -/
theorem driver_order :
    Driver.mainSequence
      = [Driver.Step.autoScalingGroups,
         Driver.Step.ecsClusters true,
         Driver.Step.ec2Instances false,
         Driver.Step.lambdaFunctions,
         Driver.Step.peeringConnections,
         Driver.Step.opensearchClusters,
         Driver.Step.kinesisStreams,
         Driver.Step.eksClusters false,
         Driver.Step.cloudFormationStacks false] := rfl

/-! ## Claim theorem about re-running against an empty region -/

/-- C8: when a procedure's listing reports no resources, the procedure
emits no events (no delete or terminate calls) and completes without
fault. -/
theorem empty_listing_noop :
    (∀ (env : List Cfn.StackSummary) (w : Bool),
      Cfn.list_stacks Cfn.pass1Filter env = [] →
      Cfn.list_stacks Cfn.pass2Filter env = [] →
      Cfn.delete_all_stacks env w = [])
    ∧ (∀ pages : List (List String), pages.flatten = [] →
      Asg.delete_all_auto_scaling_groups pages = [])
    ∧ (∀ fuel, Lam.delete_all_lambda_functions [] fuel = some [])
    ∧ OpenSearchTeardown.delete_all_opensearch_clusters [] = []
    ∧ (∀ (env : Eks.Env) (w : Bool), firstPage env.clusterPages = [] →
      Eks.delete_all_eks_clusters env w = [])
    ∧ (∀ env : Peering.Env, firstPage env.peeringPages = [] →
      Peering.delete_all_peering_connections env = .ok [])
    ∧ (∀ env : Kinesis.Env, firstPage env.streamPages = [] →
      firstPage env.firehosePages = [] →
      Kinesis.delete_all_kinesis_streams env = [])
    ∧ (∀ (rpages : List (List (List String))) (w : Bool), rpages.flatten = [] →
      Ec2.terminate_all_ec2_instances rpages w = [])
    ∧ (∀ w, (Ecs.delete_all_ecs_clusters [] w).trace = []
        ∧ (Ecs.delete_all_ecs_clusters [] w).snapshots = []) := by
  refine ⟨?_, ?_, ?_, rfl, ?_, ?_, ?_, ?_, ?_⟩
  · intro env w h1 h2
    rw [Cfn.delete_all_stacks, h1, h2]
    rfl
  · intro pages h
    rw [Asg.delete_all_auto_scaling_groups, List.flatMap_eq_nil_iff]
    intro page hpage
    rw [List.flatten_eq_nil_iff.mp h page hpage]
    rfl
  · intro fuel
    rfl
  · intro env w h
    rw [Eks.delete_all_eks_clusters, h]
    rfl
  · intro env h
    rw [Peering.delete_all_peering_connections, h]
    rfl
  · intro env h1 h2
    rw [Kinesis.delete_all_kinesis_streams, h1, h2]
    rfl
  · intro rpages w h
    rw [Ec2.terminate_all_ec2_instances, List.flatMap_eq_nil_iff]
    intro page hpage
    rw [List.flatten_eq_nil_iff.mp h page hpage]
    rfl
  · intro w
    exact ⟨rfl, rfl⟩

/-- Witness for C8: every procedure evaluated on a concrete empty
region yields the empty trace. -/
theorem empty_listing_noop_witness :
    Cfn.delete_all_stacks [] true = []
    ∧ Asg.delete_all_auto_scaling_groups [[], []] = []
    ∧ Lam.delete_all_lambda_functions [] 7 = some []
    ∧ Eks.delete_all_eks_clusters eksEnvEmpty true = []
    ∧ Peering.delete_all_peering_connections peeringEnvEmpty = .ok []
    ∧ Kinesis.delete_all_kinesis_streams kinesisEnvEmpty = []
    ∧ Ec2.terminate_all_ec2_instances [[], []] false = []
    ∧ (Ecs.delete_all_ecs_clusters [] false).trace = [] := by
  exact ⟨empty_listing_noop.1 [] true rfl rfl,
    empty_listing_noop.2.1 [[], []] rfl,
    empty_listing_noop.2.2.1 7,
    empty_listing_noop.2.2.2.2.1 eksEnvEmpty true rfl,
    empty_listing_noop.2.2.2.2.2.1 peeringEnvEmpty rfl,
    empty_listing_noop.2.2.2.2.2.2.1 kinesisEnvEmpty rfl rfl,
    empty_listing_noop.2.2.2.2.2.2.2.1 [[], []] false rfl,
    (empty_listing_noop.2.2.2.2.2.2.2.2 false).1⟩

end AwsDel
